import Mathlib

/-!
# Verification model of `redminesync` (cmd/redminesync/main.go)

A shallow embedding of the redminesync command-line tool, a sequential
mirror of Redmine issue attachments into a local directory tree.

The external world (filesystem, HTTP) is modelled explicitly:

* `FS` is the filesystem state: an association list of regular files
  (path to content), a list of directories, and a separate store of
  temporary files created by `ioutil.TempFile` in the system temp
  directory.  Temporary files are keyed by a counter, reflecting
  `ioutil.TempFile`'s guarantee that the name it picks is fresh (it never
  reuses the name of an existing file); the system temp directory is
  treated as disjoint from the sync tree.
* `Env` is the deterministic external environment: HTTP responses per
  URL, issue-fetch responses per id, the result of
  `redminesync.FindMaxIssue`, and which filesystem operations fail.
* Every outbound HTTP request is recorded as an event (`Ev`), so that
  "performs no network activity" is the absence of such events.

Functions `downloadFile`, `downloadAttachment` and the `main` driver
(`runMain` / `syncLoop` / `syncStep`) are translated line by line from
`cmd/redminesync/main.go`.  `log.Fatal` calls (which terminate the Go
process) are modelled as `fatal` results that abort the run.
-/

namespace Redminesync

/-! ## String helpers mirroring the Go standard library -/

/-- `strings.Replace(s, old, new, 1)` on character lists: replace the first
(leftmost) occurrence of `old` by `new`.  Like Go, an empty `old` inserts
`new` at the start. -/
def replaceFirstL (old new : List Char) : List Char → List Char
  | [] => if old = [] then new else []
  | c :: rest =>
    if old.isPrefixOf (c :: rest) then new ++ (c :: rest).drop old.length
    else c :: replaceFirstL old new rest

/-- `strings.Replace(s, old, new, 1)` on strings. -/
def replaceFirst (s old new : String) : String :=
  ⟨replaceFirstL old.data new.data s.data⟩

/-- `strings.Contains` on character lists: does `old` occur as a
contiguous sublist of `s`? -/
def containsSub (old : List Char) : List Char → Bool
  | [] => decide (old = [])
  | c :: rest => old.isPrefixOf (c :: rest) || containsSub old rest

/-- Split a character list on a separator character (like
`strings.Split(s, "/")` for a one-character separator). -/
def splitOnChar (c : Char) : List Char → List (List Char)
  | [] => [[]]
  | x :: rest =>
    let r := splitOnChar c rest
    if x = c then [] :: r
    else
      match r with
      | [] => [[x]]
      | h :: t => (x :: h) :: t

/-- The `..` elimination pass of `path.Clean`: a `..` segment removes the
preceding segment; at the root, `..` is dropped when the path is rooted
and kept otherwise. -/
def rmDotDot (rooted : Bool) (acc : List (List Char)) :
    List (List Char) → List (List Char)
  | [] => acc.reverse
  | seg :: rest =>
    if seg = ['.', '.'] then
      match acc with
      | [] => if rooted then rmDotDot rooted [] rest
              else rmDotDot rooted [['.', '.']] rest
      | a :: tl =>
        if a = ['.', '.'] then rmDotDot rooted (seg :: acc) rest
        else rmDotDot rooted tl rest
    else rmDotDot rooted (seg :: acc) rest

/-- `path/filepath.Clean` (Unix separators): collapse repeated slashes,
drop `.` segments, resolve `..`, keep a leading slash when rooted, and
return `.` for an empty relative result. -/
def goPathClean (p : String) : String :=
  let cs := p.data
  let rooted := decide (cs.head? = some '/')
  let segs := (splitOnChar '/' cs).filter fun s => !(s == [] || s == ['.'])
  let segs := rmDotDot rooted [] segs
  if rooted then String.mk ('/' :: List.intercalate ['/'] segs)
  else if segs = [] then "." else String.mk (List.intercalate ['/'] segs)

/-- `path/filepath.Join`: join the non-empty elements with `/` and clean
the result; all elements empty gives the empty string. -/
def goFilepathJoin (parts : List String) : String :=
  let nonempty := parts.filter fun s => s ≠ ""
  if nonempty = [] then ""
  else goPathClean (String.mk (List.intercalate ['/'] (nonempty.map String.data)))

/-- `path/filepath.Dir`: everything up to and including the final slash,
cleaned; `.` when the path contains no slash. -/
def goFilepathDir (p : String) : String :=
  let rev := p.data.reverse
  let rest := rev.dropWhile fun c => c ≠ '/'
  if rest = [] then "." else goPathClean (String.mk rest.reverse)

/-- Drop everything up to and including the first occurrence of `pat`
(helper for URL parsing); returns `[]` when `pat` does not occur. -/
def dropThrough (pat : List Char) : List Char → List Char
  | [] => []
  | c :: rest =>
    if pat.isPrefixOf (c :: rest) then (c :: rest).drop pat.length
    else dropThrough pat rest

/-- The `Path` component of a parsed URL.  Only the path is consumed by
the program. -/
structure GoURL where
  path : String
deriving DecidableEq, Repr

/-- Simplified `net/url.Parse`, covering URLs of the shape
`scheme://authority/path?query#fragment` and scheme-less relative
references (whose whole pre-query text is the path).  Percent-decoding
and `url.Parse`'s rare failure cases (invalid control characters) are not
modelled; the theorems about `downloadAttachment` quantify over the
resulting path, so they are unaffected. -/
def urlParse (link : String) : GoURL :=
  let s := ((link.data.takeWhile fun c => c ≠ '#').takeWhile fun c => c ≠ '?')
  if containsSub "://".data s then
    ⟨String.mk ((dropThrough "://".data s).dropWhile fun c => c ≠ '/')⟩
  else
    ⟨String.mk s⟩

/-! ## Filesystem and environment model -/

/-- Filesystem state.  `files` maps paths of regular files to their
contents (newest binding first, as writes shadow older ones); `dirs`
lists existing directories; `temps` holds temporary files created in the
system temp directory, keyed by a freshness counter. -/
structure FS where
  files : List (String × String)
  dirs : List String
  temps : List (Nat × String)
  tmpCounter : Nat
deriving DecidableEq, Repr

def FS.lookupFile (fs : FS) (p : String) : Option String :=
  (fs.files.find? fun kv => kv.1 == p).map (·.2)

def FS.hasFile (fs : FS) (p : String) : Bool :=
  (fs.lookupFile p).isSome

def FS.hasDir (fs : FS) (p : String) : Bool :=
  fs.dirs.contains p

/-- Result of `os.Stat` as consumed by the program: the entry exists, the
stat error satisfies `os.IsNotExist`, or the stat failed with some other
error (e.g. a permission error on a parent directory). -/
inductive StatR
  | found
  | notExist
  | otherErr
deriving DecidableEq, Repr

/-- Outcome of `io.Copy` of a response body: the full content, or a
failure after writing a partial amount. -/
inductive CopyOutcome
  | ok (content : String)
  | fail (written : String)
deriving DecidableEq, Repr

/-- Response of the content-URL GET (`http.DefaultClient.Do` for the
attachment download): a transport error (`Do` returns an error), or a
status with body-copy outcome and close outcome. -/
inductive ContentResp
  | transportErr
  | resp (status : Nat) (body : CopyOutcome) (closeErr : Bool)
deriving DecidableEq, Repr

/-- An attachment record; of the many decoded fields, only `content_url`
is consumed by the program, so only it is modelled. -/
structure Attachment where
  contentUrl : String
deriving DecidableEq, Repr

instance {ε α : Type _} [DecidableEq ε] [DecidableEq α] : DecidableEq (Except ε α) := fun x y =>
  match x, y with
  | .ok a, .ok b =>
    if h : a = b then .isTrue (by rw [h]) else .isFalse (by intro hc; cases hc; exact h rfl)
  | .error a, .error b =>
    if h : a = b then .isTrue (by rw [h]) else .isFalse (by intro hc; cases hc; exact h rfl)
  | .ok _, .error _ => .isFalse (by intro hc; cases hc)
  | .error _, .ok _ => .isFalse (by intro hc; cases hc)

/-- Response of the issue fetch: transport error, or an HTTP status with
the JSON-decode outcome of the body (the decoded attachment list of the
`IssueResponse`, or a decoder error message). -/
inductive FetchResp
  | transportErr
  | resp (status : Nat) (decoded : Except String (List Attachment))
deriving DecidableEq, Repr

/-- Deterministic external environment: per-path stat failures, whether
`ioutil.TempFile` fails, per-directory `os.MkdirAll` failures, HTTP
responses per content URL, per-destination `os.Rename` failures, issue
fetch responses per id, and the result of `redminesync.FindMaxIssue`. -/
structure Env where
  statErr : String → Bool
  tempFileErr : Bool
  mkdirErr : String → Bool
  content : String → ContentResp
  renameErr : String → Bool
  fetch : Int → FetchResp
  resolveMax : Except String Int

/-- `os.Stat` dispatch as used by the program (`os.IsNotExist(err)`):
a path with a configured stat error reports `otherErr`; otherwise
presence of a file or directory reports `found`. -/
def statPath (env : Env) (fs : FS) (p : String) : StatR :=
  if env.statErr p then .otherErr
  else if fs.hasFile p || fs.hasDir p then .found
  else .notExist

/-- Outbound network requests (and attachment-loop iterations), recorded
as a trace. `fetchIssue` and `getContent` both carry the
`X-Redmine-API-Key` header value. -/
inductive Ev
  | resolveCall
  | fetchIssue (i : Int) (url : String) (apiKey : String)
  | getContent (url : String) (apiKey : String)
  | attachmentStart (url : String) (issue : Int)
deriving DecidableEq, Repr

/-- Errors returned (as Go `error` values) by the downloader. -/
inductive DlErr
  | tempFile
  | badStatus (status : Nat)
  | copyFailed
  | closeFailed
  | renameFailed
  | malformedURL (link : String)
deriving DecidableEq, Repr

/-- Result of a downloader call: success, a returned error, or a
`log.Fatal` from inside the helper (request construction / transport
errors terminate the Go process directly). -/
inductive DlRes
  | ok
  | err (e : DlErr)
  | fatal (msg : String)
deriving DecidableEq, Repr

structure DlOut where
  res : DlRes
  fs : FS
  evs : List Ev
deriving DecidableEq, Repr

/-! ## downloadFile (main.go lines 137-176) -/

/-- `downloadFile(link, filepath)`: if `os.Stat` reports the destination
as not existing, create a temp file, GET the link with the API-key
header, require status 200, stream the body into the temp file, close
it, and rename it onto the destination.  Any other stat outcome takes
the "already downloaded" branch and returns nil.  `http.NewRequest` /
`Do` errors are `log.Fatal` (modelled as `transportErr`). -/
def downloadFile (env : Env) (apiKey link fpath : String) (fs : FS) : DlOut :=
  match statPath env fs fpath with
  | .notExist =>
    if env.tempFileErr then ⟨.err .tempFile, fs, []⟩
    else
      let tid := fs.tmpCounter
      let fs1 : FS := { fs with temps := (tid, "") :: fs.temps, tmpCounter := tid + 1 }
      match env.content link with
      | .transportErr => ⟨.fatal "transport error", fs1, [.getContent link apiKey]⟩
      | .resp status body closeErr =>
        if status ≠ 200 then ⟨.err (.badStatus status), fs1, [.getContent link apiKey]⟩
        else
          match body with
          | .fail written =>
            ⟨.err .copyFailed, { fs1 with temps := (tid, written) :: fs1.temps },
              [.getContent link apiKey]⟩
          | .ok content =>
            let fs2 : FS := { fs1 with temps := (tid, content) :: fs1.temps }
            if closeErr then ⟨.err .closeFailed, fs2, [.getContent link apiKey]⟩
            else if env.renameErr fpath then ⟨.err .renameFailed, fs2, [.getContent link apiKey]⟩
            else
              let fs3 : FS :=
                { fs2 with
                  temps := fs2.temps.filter (fun kv => kv.1 != tid)
                  files := (fpath, content) :: fs2.files }
              ⟨.ok, fs3, [.getContent link apiKey]⟩
  | _ => ⟨.ok, fs, []⟩

/-! ## downloadAttachment (main.go lines 178-194) -/

/-- The fixed route segment stripped from content-URL paths. -/
def attachmentRoute : String := "attachments/download"

/-- The destination path computed by `downloadAttachment`:
`filepath.Join(rootDirectory, fmt.Sprintf("%d", issue), path)` where
`path` is the URL path with the first `attachments/download` removed. -/
def attachmentDest (link rootDirectory : String) (issue : Int) : String :=
  goFilepathJoin [rootDirectory, toString issue,
    replaceFirst (urlParse link).path attachmentRoute ""]

/-- The length check of `downloadAttachment` as a boolean: the strip
removed exactly `len("attachments/download")` bytes. -/
def validLink (link : String) : Bool :=
  let p := (urlParse link).path
  (p.length - (replaceFirst p attachmentRoute "").length) == attachmentRoute.length

/-- `downloadAttachment(link, rootDirectory, issue)`: parse the link,
strip the first `attachments/download` from its path, fail if the strip
did not remove exactly that many bytes, otherwise join root / issue id /
stripped path, `MkdirAll` the parent directory if `os.Stat` reports it
missing (a `MkdirAll` error is `log.Fatal`), and call `downloadFile`.
`MkdirAll` is modelled as adding the directory itself (its parents are
not consulted by the program). -/
def downloadAttachment (env : Env) (apiKey link rootDirectory : String)
    (issue : Int) (fs : FS) : DlOut :=
  let u := urlParse link
  let path := replaceFirst u.path attachmentRoute ""
  if u.path.length - path.length ≠ attachmentRoute.length then
    ⟨.err (.malformedURL link), fs, []⟩
  else
    let dst := goFilepathJoin [rootDirectory, toString issue, path]
    match statPath env fs (goFilepathDir dst) with
    | .notExist =>
      if env.mkdirErr (goFilepathDir dst) then ⟨.fatal "mkdir failed", fs, []⟩
      else downloadFile env apiKey link dst { fs with dirs := goFilepathDir dst :: fs.dirs }
    | _ => downloadFile env apiKey link dst fs

/-! ## The driver (main.go lines 196-258) -/

/-- Fatal conditions (`log.Fatal` sites) of the run. -/
inductive Fatal
  | config (msg : String)
  | resolveErr (msg : String)
  | fetchTransport (i : Int)
  | fetchStatus (i : Int) (status : Nat)
  | decodeErr (i : Int)
  | downloader (e : DlErr)
  | dlFatal (msg : String)
deriving DecidableEq, Repr

/-- Outcome of a driver step or run: optional fatal condition, final
filesystem, trace of events. -/
structure StepOut where
  fatal : Option Fatal
  fs : FS
  evs : List Ev
deriving DecidableEq, Repr

/-- The `for _, attachment := range issue.Issue.Attachments` loop: invoke
`downloadAttachment` for each content URL in order; any downloader error
is `log.Fatal`. -/
def processAttachments (env : Env) (apiKey syncDir : String) (issue : Int) :
    List Attachment → FS → StepOut
  | [], fs => ⟨none, fs, []⟩
  | a :: rest, fs =>
    let out := downloadAttachment env apiKey a.contentUrl syncDir issue fs
    match out.res with
    | .ok =>
      let r := processAttachments env apiKey syncDir issue rest out.fs
      ⟨r.fatal, r.fs, .attachmentStart a.contentUrl issue :: (out.evs ++ r.evs)⟩
    | .err e => ⟨some (.downloader e), out.fs, .attachmentStart a.contentUrl issue :: out.evs⟩
    | .fatal m => ⟨some (.dlFatal m), out.fs, .attachmentStart a.contentUrl issue :: out.evs⟩

/-- The issue-fetch URL `{baseURL}/issues/{id}.json?include=attachments`. -/
def issueURL (baseURL : String) (i : Int) : String :=
  baseURL ++ "/issues/" ++ toString i ++ ".json?include=attachments"

/-- One iteration of the driver loop for issue id `i`: fetch the issue
(transport error is `log.Fatal`), skip on status 404 or 403, `log.Fatal`
on any other status ≥ 400, `log.Fatal` on a JSON decode error, otherwise
process the decoded attachment list. -/
def syncStep (env : Env) (apiKey baseURL syncDir : String) (i : Int) (fs : FS) : StepOut :=
  let link := issueURL baseURL i
  match env.fetch i with
  | .transportErr => ⟨some (.fetchTransport i), fs, [.fetchIssue i link apiKey]⟩
  | .resp status decoded =>
    if status = 404 ∨ status = 403 then ⟨none, fs, [.fetchIssue i link apiKey]⟩
    else if status ≥ 400 then ⟨some (.fetchStatus i status), fs, [.fetchIssue i link apiKey]⟩
    else
      match decoded with
      | .error _ => ⟨some (.decodeErr i), fs, [.fetchIssue i link apiKey]⟩
      | .ok atts =>
        let r := processAttachments env apiKey syncDir i atts fs
        ⟨r.fatal, r.fs, .fetchIssue i link apiKey :: r.evs⟩

/-- The driver loop `for i := start; i <= end; i++`, with the number of
remaining iterations as fuel; a fatal step aborts the loop. -/
def syncLoop (env : Env) (apiKey baseURL syncDir : String) : Nat → Int → FS → StepOut
  | 0, _, fs => ⟨none, fs, []⟩
  | n + 1, i, fs =>
    let s := syncStep env apiKey baseURL syncDir i fs
    match s.fatal with
    | some f => ⟨some f, s.fs, s.evs⟩
    | none =>
      let r := syncLoop env apiKey baseURL syncDir n (i + 1) s.fs
      ⟨r.fatal, r.fs, s.evs ++ r.evs⟩

/-- The resolved command-line configuration (flag defaults already fold
in the `REDMINE_API_KEY` / `REDMINE_BASE_URL` environment variables, and
`syncDir` defaults to the per-user cache directory).  `verbose` and
`showProgress` affect logging / the progress bar only and have no
modelled effect. -/
structure Config where
  startIssueNumber : Int
  endIssueNumber : Int
  syncDir : String
  apiKey : String
  baseURL : String
  verbose : Bool
  showProgress : Bool
deriving DecidableEq, Repr

/-- Number of iterations of `for i := start; i <= end; i++`. -/
def loopFuel (start endN : Int) : Nat := (endN + 1 - start).toNat

/-- The `n` consecutive integers starting at `i`, in ascending order. -/
def ascRange (i : Int) : Nat → List Int
  | 0 => []
  | n + 1 => i :: ascRange (i + 1) n

/-- The closed integer interval `[start, endN]` as an ascending list. -/
def intRange (start endN : Int) : List Int :=
  ascRange start (loopFuel start endN)

/-- `main` after flag parsing: check the API key and base URL, resolve
the end issue number via `redminesync.FindMaxIssue` when it is 0 (a
resolver error is `log.Fatal`), then run the loop. -/
def runMain (env : Env) (cfg : Config) (fs : FS) : StepOut :=
  if cfg.apiKey = "" then
    ⟨some (.config "REDMINE_API_KEY not defined and -k not given"), fs, []⟩
  else if cfg.baseURL = "" then
    ⟨some (.config "REDMINE_BASE_URL not defined and -b not given"), fs, []⟩
  else if cfg.endIssueNumber = 0 then
    match env.resolveMax with
    | .error m => ⟨some (.resolveErr m), fs, [.resolveCall]⟩
    | .ok maxIssue =>
      let r := syncLoop env cfg.apiKey cfg.baseURL cfg.syncDir
        (loopFuel cfg.startIssueNumber maxIssue) cfg.startIssueNumber fs
      ⟨r.fatal, r.fs, .resolveCall :: r.evs⟩
  else
    syncLoop env cfg.apiKey cfg.baseURL cfg.syncDir
      (loopFuel cfg.startIssueNumber cfg.endIssueNumber) cfg.startIssueNumber fs

/-- The upper bound actually used by the loop: the resolver's value when
the configured end is the 0 sentinel, the configured end otherwise. -/
def resolvedEnd (env : Env) (cfg : Config) : Int :=
  if cfg.endIssueNumber = 0 then
    match env.resolveMax with
    | .ok m => m
    | .error _ => cfg.endIssueNumber
  else cfg.endIssueNumber

/-! ## Trace observations -/

/-- The issue ids fetched, in request order. -/
def fetchedIds (evs : List Ev) : List Int :=
  evs.filterMap fun e =>
    match e with
    | .fetchIssue i _ _ => some i
    | _ => none

/-- The content-URL GET requests of a trace. -/
def contentCalls (evs : List Ev) : List Ev :=
  evs.filter fun e =>
    match e with
    | .getContent _ _ => true
    | _ => false

/-- The attachment content URLs processed (downloader invocations), in
order. -/
def attachmentOrder (evs : List Ev) : List String :=
  evs.filterMap fun e =>
    match e with
    | .attachmentStart url _ => some url
    | _ => none

/-! ## Lemmas about the string helpers -/

theorem containsSub_length_le {old s : List Char} (h : containsSub old s = true) :
    old.length ≤ s.length := by
  induction s with
  | nil => simp [containsSub] at h; simp [h]
  | cons c rest ih =>
    simp only [containsSub, Bool.or_eq_true] at h
    rcases h with h | h
    · exact (List.isPrefixOf_iff_prefix.mp h).length_le
    · exact (ih h).trans (by simp)

theorem replaceFirstL_erase_length (old : List Char) (ho : old ≠ []) (s : List Char) :
    (replaceFirstL old [] s).length =
      if containsSub old s then s.length - old.length else s.length := by
  induction s with
  | nil => simp [replaceFirstL, containsSub, ho]
  | cons c rest ih =>
    by_cases hp : old.isPrefixOf (c :: rest)
    · simp [replaceFirstL, containsSub, hp]
    · rw [show replaceFirstL old [] (c :: rest) = c :: replaceFirstL old [] rest from by
        simp [replaceFirstL, hp]]
      rw [show containsSub old (c :: rest) = containsSub old rest from by
        simp [containsSub, hp]]
      simp only [List.length_cons, ih]
      by_cases hc : containsSub old rest
      · have h1 := @containsSub_length_le old rest hc
        simp only [hc, if_true]
        omega
      · simp [hc]

/-- The length test of `downloadAttachment` detects exactly whether the
route segment occurs in the URL path. -/
theorem strip_length_iff (old : List Char) (ho : old ≠ []) (s : List Char) :
    (s.length - (replaceFirstL old [] s).length = old.length) ↔ containsSub old s = true := by
  rw [replaceFirstL_erase_length old ho s]
  by_cases hc : containsSub old s
  · have h1 := @containsSub_length_le old s hc
    rw [if_pos hc]
    constructor
    · intro _; exact hc
    · intro _; omega
  · have h0 : old.length ≠ 0 := by cases old <;> simp_all
    rw [if_neg hc]
    constructor
    · intro h; exact absurd h (by omega)
    · intro h; exact absurd h hc

/-- String-level version, phrased on the quantities appearing in
`downloadAttachment`. -/
theorem validLink_len_iff (link : String) :
    ((urlParse link).path.length
        - (replaceFirst (urlParse link).path attachmentRoute "").length
      = attachmentRoute.length)
      ↔ containsSub attachmentRoute.data (urlParse link).path.data = true :=
  strip_length_iff attachmentRoute.data (by decide) (urlParse link).path.data

/-! ## Lemmas about statPath and downloadFile -/

theorem statPath_ne_notExist (env : Env) (fs : FS) (q : String) :
    statPath env fs q ≠ .notExist ↔
      (env.statErr q = true ∨ fs.hasFile q = true ∨ fs.hasDir q = true) := by
  unfold statPath
  by_cases he : env.statErr q = true
  · simp [he]
  · rw [if_neg he]
    by_cases hfd : (fs.hasFile q || fs.hasDir q) = true
    · rw [if_pos hfd]
      simp only [Bool.or_eq_true] at hfd
      simp [he, hfd]
    · rw [if_neg hfd]
      simp only [Bool.or_eq_true, not_or, Bool.not_eq_true] at hfd
      simp [he, hfd.1, hfd.2]

theorem statPath_notExist_elim (env : Env) (fs : FS) (q : String)
    (h : statPath env fs q = .notExist) :
    env.statErr q = false ∧ fs.hasFile q = false ∧ fs.hasDir q = false := by
  unfold statPath at h
  by_cases he : env.statErr q = true
  · rw [if_pos he] at h; cases h
  · rw [if_neg he] at h
    by_cases hfd : (fs.hasFile q || fs.hasDir q) = true
    · rw [if_pos hfd] at h; cases h
    · simp only [Bool.or_eq_true, not_or, Bool.not_eq_true] at hfd
      exact ⟨Bool.not_eq_true _ |>.mp he, hfd.1, hfd.2⟩

/-- The "already downloaded" branch: any stat outcome other than
`notExist` returns success with no state change and no event. -/
theorem downloadFile_skip (env : Env) (k l p : String) (fs : FS)
    (h : statPath env fs p ≠ .notExist) :
    downloadFile env k l p fs = ⟨.ok, fs, []⟩ := by
  unfold downloadFile
  cases hst : statPath env fs p with
  | notExist => exact absurd hst h
  | found => rfl
  | otherErr => rfl

theorem downloadFile_dirs (env : Env) (k l p : String) (fs : FS) :
    (downloadFile env k l p fs).fs.dirs = fs.dirs := by
  unfold downloadFile
  repeat' split
  all_goals rfl

/-- Full case analysis of `downloadFile`: either the already-downloaded
short-circuit fires, or (destination absent) the regular-file store is
unchanged on every non-`ok` outcome and gains exactly the downloaded
content at the destination on the `ok` outcome. -/
theorem downloadFile_cases (env : Env) (k l p : String) (fs : FS) :
    (statPath env fs p ≠ .notExist ∧ downloadFile env k l p fs = ⟨.ok, fs, []⟩) ∨
    (statPath env fs p = .notExist ∧
      (downloadFile env k l p fs).fs.dirs = fs.dirs ∧
      (((downloadFile env k l p fs).res ≠ .ok ∧
          (downloadFile env k l p fs).fs.files = fs.files) ∨
       ((downloadFile env k l p fs).res = .ok ∧
         ∃ c, env.content l = .resp 200 (.ok c) false ∧ env.renameErr p = false ∧
           env.tempFileErr = false ∧
           (downloadFile env k l p fs).fs.files = (p, c) :: fs.files))) := by
  simp only [downloadFile]
  cases hst : statPath env fs p with
  | found => exact Or.inl ⟨by simp, rfl⟩
  | otherErr => exact Or.inl ⟨by simp, rfl⟩
  | notExist =>
    dsimp only
    refine Or.inr ⟨rfl, ?_⟩
    by_cases hT : env.tempFileErr = true
    · rw [if_pos hT]
      exact ⟨rfl, Or.inl ⟨(by simp), rfl⟩⟩
    · rw [if_neg hT]
      cases hc : env.content l with
      | transportErr => exact ⟨rfl, Or.inl ⟨(by simp), rfl⟩⟩
      | resp status body closeErr =>
        dsimp only
        by_cases hs : status ≠ 200
        · rw [if_pos hs]
          exact ⟨rfl, Or.inl ⟨(by simp), rfl⟩⟩
        · rw [if_neg hs]
          push_neg at hs
          cases body with
          | fail w => exact ⟨rfl, Or.inl ⟨(by simp), rfl⟩⟩
          | ok c =>
            dsimp only
            by_cases hce : closeErr = true
            · rw [if_pos hce]
              exact ⟨rfl, Or.inl ⟨(by simp), rfl⟩⟩
            · rw [if_neg hce]
              by_cases hre : env.renameErr p = true
              · rw [if_pos hre]
                exact ⟨rfl, Or.inl ⟨(by simp), rfl⟩⟩
              · rw [if_neg hre]
                refine ⟨rfl, Or.inr ⟨rfl, c, ?_, Bool.not_eq_true _ |>.mp hre,
                  Bool.not_eq_true _ |>.mp hT, rfl⟩⟩
                rw [hs, Bool.not_eq_true _ |>.mp hce]

/-- `downloadFile` makes at most one network request: the content GET,
carrying the API key. -/
theorem downloadFile_evs_shape (env : Env) (k l p : String) (fs : FS) :
    (downloadFile env k l p fs).evs = [] ∨
    (downloadFile env k l p fs).evs = [.getContent l k] := by
  unfold downloadFile
  repeat' split
  all_goals first | exact Or.inl rfl | exact Or.inr rfl

theorem hasFile_of_files_cons {fs fs' : FS} (kv : String × String)
    (h : fs'.files = kv :: fs.files) {x : String} (hx : fs.hasFile x = true) :
    fs'.hasFile x = true := by
  unfold FS.hasFile FS.lookupFile at hx ⊢
  rw [h, List.find?_cons]
  cases hkv : (kv.1 == x) <;> simp_all

theorem downloadFile_hasFile_mono (env : Env) (k l p : String) (fs : FS) {x : String}
    (hx : fs.hasFile x = true) : (downloadFile env k l p fs).fs.hasFile x = true := by
  rcases downloadFile_cases env k l p fs with ⟨_, heq⟩ | ⟨_, _, hsh⟩
  · rw [heq]; exact hx
  · rcases hsh with ⟨_, hf⟩ | ⟨_, c, _, _, _, hf⟩
    · unfold FS.hasFile FS.lookupFile at hx ⊢
      rw [hf]; exact hx
    · exact hasFile_of_files_cons _ hf hx

/-- A path that stats as present (or stat-errs) keeps doing so after any
`downloadFile` call: the downloader never removes files or
directories. -/
theorem downloadFile_statPath_mono (env : Env) (k l p : String) (fs : FS) {q : String}
    (h : statPath env fs q ≠ .notExist) :
    statPath env (downloadFile env k l p fs).fs q ≠ .notExist := by
  rw [statPath_ne_notExist] at h ⊢
  rcases h with h | h | h
  · exact Or.inl h
  · exact Or.inr (Or.inl (downloadFile_hasFile_mono env k l p fs h))
  · refine Or.inr (Or.inr ?_)
    have hd := downloadFile_dirs env k l p fs
    unfold FS.hasDir at h ⊢
    rw [hd]; exact h

/-- After a successful `downloadFile`, the destination no longer stats
as missing. -/
theorem downloadFile_ensures (env : Env) (k l p : String) (fs : FS)
    (h : (downloadFile env k l p fs).res = .ok) :
    statPath env (downloadFile env k l p fs).fs p ≠ .notExist := by
  rcases downloadFile_cases env k l p fs with ⟨hne, heq⟩ | ⟨hst, hdirs, hsh⟩
  · rw [heq]; exact hne
  · rcases hsh with ⟨hne, _⟩ | ⟨_, c, _, _, _, hf⟩
    · exact absurd h hne
    · rw [statPath_ne_notExist]
      refine Or.inr (Or.inl ?_)
      unfold FS.hasFile FS.lookupFile
      rw [hf, List.find?_cons]
      simp

/-! ## Lemmas about downloadAttachment -/

theorem statPath_cons_dir_mono (env : Env) (fs : FS) (d : String) {q : String}
    (h : statPath env fs q ≠ .notExist) :
    statPath env { fs with dirs := d :: fs.dirs } q ≠ .notExist := by
  rw [statPath_ne_notExist] at h ⊢
  rcases h with h | h | h
  · exact Or.inl h
  · exact Or.inr (Or.inl h)
  · refine Or.inr (Or.inr ?_)
    unfold FS.hasDir at h ⊢
    cases hqd : (q == d) <;> simp_all [List.contains_cons]

theorem statPath_cons_dir_self (env : Env) (fs : FS) (d : String) :
    statPath env { fs with dirs := d :: fs.dirs } d ≠ .notExist := by
  rw [statPath_ne_notExist]
  by_cases he : env.statErr d = true
  · exact Or.inl he
  · refine Or.inr (Or.inr ?_)
    unfold FS.hasDir
    simp [List.contains_cons]

theorem downloadAttachment_invalid (env : Env) (k link dir : String) (i : Int) (fs : FS)
    (h : containsSub attachmentRoute.data (urlParse link).path.data = false) :
    downloadAttachment env k link dir i fs = ⟨.err (.malformedURL link), fs, []⟩ := by
  have h' : (urlParse link).path.length
      - (replaceFirst (urlParse link).path attachmentRoute "").length
      ≠ attachmentRoute.length := by
    intro heq
    rw [validLink_len_iff link] at heq
    simp [h] at heq
  simp only [downloadAttachment]
  rw [if_pos h']

theorem downloadAttachment_valid_eq (env : Env) (k link dir : String) (i : Int) (fs : FS)
    (h : containsSub attachmentRoute.data (urlParse link).path.data = true) :
    downloadAttachment env k link dir i fs =
      (match statPath env fs (goFilepathDir (attachmentDest link dir i)) with
       | .notExist =>
         if env.mkdirErr (goFilepathDir (attachmentDest link dir i)) then
           ⟨.fatal "mkdir failed", fs, []⟩
         else downloadFile env k link (attachmentDest link dir i)
           { fs with dirs := goFilepathDir (attachmentDest link dir i) :: fs.dirs }
       | _ => downloadFile env k link (attachmentDest link dir i) fs) := by
  have h' : ¬ ((urlParse link).path.length
      - (replaceFirst (urlParse link).path attachmentRoute "").length
      ≠ attachmentRoute.length) := by
    rw [not_not, validLink_len_iff link]
    exact h
  simp only [downloadAttachment, attachmentDest]
  rw [if_neg h']

theorem downloadAttachment_skip (env : Env) (k link dir : String) (i : Int) (fs : FS)
    (h : containsSub attachmentRoute.data (urlParse link).path.data = true)
    (h1 : statPath env fs (attachmentDest link dir i) ≠ .notExist)
    (h2 : statPath env fs (goFilepathDir (attachmentDest link dir i)) ≠ .notExist) :
    downloadAttachment env k link dir i fs = ⟨.ok, fs, []⟩ := by
  rw [downloadAttachment_valid_eq env k link dir i fs h]
  cases hd : statPath env fs (goFilepathDir (attachmentDest link dir i)) with
  | notExist => exact absurd hd h2
  | found => exact downloadFile_skip env k link (attachmentDest link dir i) fs h1
  | otherErr => exact downloadFile_skip env k link (attachmentDest link dir i) fs h1

theorem downloadAttachment_statPath_mono (env : Env) (k link dir : String) (i : Int)
    (fs : FS) {q : String} (h : statPath env fs q ≠ .notExist) :
    statPath env (downloadAttachment env k link dir i fs).fs q ≠ .notExist := by
  by_cases hc : containsSub attachmentRoute.data (urlParse link).path.data = true
  · rw [downloadAttachment_valid_eq env k link dir i fs hc]
    cases hd : statPath env fs (goFilepathDir (attachmentDest link dir i)) with
    | notExist =>
      by_cases hm : env.mkdirErr (goFilepathDir (attachmentDest link dir i)) = true
      · rw [if_pos hm]; exact h
      · rw [if_neg hm]
        exact downloadFile_statPath_mono env k link _ _ (statPath_cons_dir_mono env fs _ h)
    | found => exact downloadFile_statPath_mono env k link _ _ h
    | otherErr => exact downloadFile_statPath_mono env k link _ _ h
  · rw [downloadAttachment_invalid env k link dir i fs (by simpa using hc)]
    exact h

theorem downloadAttachment_ok_ensures (env : Env) (k link dir : String) (i : Int) (fs : FS)
    (h : (downloadAttachment env k link dir i fs).res = .ok) :
    containsSub attachmentRoute.data (urlParse link).path.data = true ∧
    statPath env (downloadAttachment env k link dir i fs).fs
      (attachmentDest link dir i) ≠ .notExist ∧
    statPath env (downloadAttachment env k link dir i fs).fs
      (goFilepathDir (attachmentDest link dir i)) ≠ .notExist := by
  by_cases hc : containsSub attachmentRoute.data (urlParse link).path.data = true
  · refine ⟨hc, ?_⟩
    rw [downloadAttachment_valid_eq env k link dir i fs hc] at h ⊢
    cases hd : statPath env fs (goFilepathDir (attachmentDest link dir i)) with
    | notExist =>
      rw [hd] at h
      dsimp only at h
      by_cases hm : env.mkdirErr (goFilepathDir (attachmentDest link dir i)) = true
      · rw [if_pos hm] at h
        dsimp only at h
        cases h
      · rw [if_neg hm] at h ⊢
        refine ⟨downloadFile_ensures env k link _ _ h, ?_⟩
        refine downloadFile_statPath_mono env k link _ _ ?_
        exact statPath_cons_dir_self env fs _
    | found =>
      rw [hd] at h
      dsimp only at h
      refine ⟨downloadFile_ensures env k link _ _ h, ?_⟩
      refine downloadFile_statPath_mono env k link _ _ ?_
      rw [hd]; simp
    | otherErr =>
      rw [hd] at h
      dsimp only at h
      refine ⟨downloadFile_ensures env k link _ _ h, ?_⟩
      refine downloadFile_statPath_mono env k link _ _ ?_
      rw [hd]; simp
  · rw [downloadAttachment_invalid env k link dir i fs (by simpa using hc)] at h
    cases h

theorem downloadAttachment_evs_shape (env : Env) (k link dir : String) (i : Int) (fs : FS) :
    (downloadAttachment env k link dir i fs).evs = [] ∨
    (downloadAttachment env k link dir i fs).evs = [.getContent link k] := by
  by_cases hc : containsSub attachmentRoute.data (urlParse link).path.data = true
  · rw [downloadAttachment_valid_eq env k link dir i fs hc]
    cases hd : statPath env fs (goFilepathDir (attachmentDest link dir i)) with
    | notExist =>
      by_cases hm : env.mkdirErr (goFilepathDir (attachmentDest link dir i)) = true
      · rw [if_pos hm]; exact Or.inl rfl
      · rw [if_neg hm]; exact downloadFile_evs_shape env k link _ _
    | found => exact downloadFile_evs_shape env k link _ _
    | otherErr => exact downloadFile_evs_shape env k link _ _
  · rw [downloadAttachment_invalid env k link dir i fs (by simpa using hc)]
    exact Or.inl rfl

/-! ## Lemmas about processAttachments -/

theorem processAttachments_statPath_mono (env : Env) (k dir : String) (i : Int)
    (atts : List Attachment) : ∀ (fs : FS) {q : String},
    statPath env fs q ≠ .notExist →
    statPath env (processAttachments env k dir i atts fs).fs q ≠ .notExist := by
  induction atts with
  | nil => intro fs q h; exact h
  | cons a rest ih =>
    intro fs q h
    simp only [processAttachments]
    cases hr : (downloadAttachment env k a.contentUrl dir i fs).res with
    | ok =>
      dsimp only
      exact ih _ (downloadAttachment_statPath_mono env k a.contentUrl dir i fs h)
    | err e =>
      dsimp only
      exact downloadAttachment_statPath_mono env k a.contentUrl dir i fs h
    | fatal m =>
      dsimp only
      exact downloadAttachment_statPath_mono env k a.contentUrl dir i fs h

theorem processAttachments_ensures (env : Env) (k dir : String) (i : Int)
    (atts : List Attachment) : ∀ (fs : FS),
    (processAttachments env k dir i atts fs).fatal = none →
    ∀ a ∈ atts,
      containsSub attachmentRoute.data (urlParse a.contentUrl).path.data = true ∧
      statPath env (processAttachments env k dir i atts fs).fs
        (attachmentDest a.contentUrl dir i) ≠ .notExist ∧
      statPath env (processAttachments env k dir i atts fs).fs
        (goFilepathDir (attachmentDest a.contentUrl dir i)) ≠ .notExist := by
  induction atts with
  | nil => intro fs _ a ha; cases ha
  | cons x rest ih =>
    intro fs hfat a ha
    simp only [processAttachments] at hfat ⊢
    cases hr : (downloadAttachment env k x.contentUrl dir i fs).res with
    | err e => rw [hr] at hfat; dsimp only at hfat; cases hfat
    | fatal m => rw [hr] at hfat; dsimp only at hfat; cases hfat
    | ok =>
      rw [hr] at hfat
      dsimp only at hfat ⊢
      rcases List.mem_cons.mp ha with rfl | hmem
      · have h1 := downloadAttachment_ok_ensures env k a.contentUrl dir i fs hr
        exact ⟨h1.1, processAttachments_statPath_mono env k dir i rest _ h1.2.1,
          processAttachments_statPath_mono env k dir i rest _ h1.2.2⟩
      · exact ih _ hfat a hmem

theorem processAttachments_skip (env : Env) (k dir : String) (i : Int)
    (atts : List Attachment) (fs : FS)
    (h : ∀ a ∈ atts,
      containsSub attachmentRoute.data (urlParse a.contentUrl).path.data = true ∧
      statPath env fs (attachmentDest a.contentUrl dir i) ≠ .notExist ∧
      statPath env fs (goFilepathDir (attachmentDest a.contentUrl dir i)) ≠ .notExist) :
    processAttachments env k dir i atts fs =
      ⟨none, fs, atts.map fun a => .attachmentStart a.contentUrl i⟩ := by
  induction atts with
  | nil => rfl
  | cons x rest ih =>
    have hx := h x (List.mem_cons_self x rest)
    have hda := downloadAttachment_skip env k x.contentUrl dir i fs hx.1 hx.2.1 hx.2.2
    simp only [processAttachments, hda]
    rw [ih fun a ha => h a (List.mem_cons_of_mem x ha)]
    simp

theorem processAttachments_evs_shape (env : Env) (k dir : String) (i : Int)
    (atts : List Attachment) : ∀ (fs : FS), ∀ e ∈ (processAttachments env k dir i atts fs).evs,
    (∃ u, e = .attachmentStart u i) ∨ ∃ u a2, e = .getContent u a2 := by
  induction atts with
  | nil => intro fs e he; cases he
  | cons x rest ih =>
    intro fs e he
    simp only [processAttachments] at he
    cases hr : (downloadAttachment env k x.contentUrl dir i fs).res with
    | ok =>
      rw [hr] at he
      dsimp only at he
      rcases List.mem_cons.mp he with rfl | he2
      · exact Or.inl ⟨x.contentUrl, rfl⟩
      · rcases List.mem_append.mp he2 with he3 | he4
        · rcases downloadAttachment_evs_shape env k x.contentUrl dir i fs with hsh | hsh
          · rw [hsh] at he3; cases he3
          · rw [hsh] at he3
            rcases List.mem_singleton.mp he3 with rfl
            exact Or.inr ⟨x.contentUrl, k, rfl⟩
        · exact ih _ e he4
    | err e2 =>
      rw [hr] at he
      dsimp only at he
      rcases List.mem_cons.mp he with rfl | he2
      · exact Or.inl ⟨x.contentUrl, rfl⟩
      · rcases downloadAttachment_evs_shape env k x.contentUrl dir i fs with hsh | hsh
        · rw [hsh] at he2; cases he2
        · rw [hsh] at he2
          rcases List.mem_singleton.mp he2 with rfl
          exact Or.inr ⟨x.contentUrl, k, rfl⟩
    | fatal m =>
      rw [hr] at he
      dsimp only at he
      rcases List.mem_cons.mp he with rfl | he2
      · exact Or.inl ⟨x.contentUrl, rfl⟩
      · rcases downloadAttachment_evs_shape env k x.contentUrl dir i fs with hsh | hsh
        · rw [hsh] at he2; cases he2
        · rw [hsh] at he2
          rcases List.mem_singleton.mp he2 with rfl
          exact Or.inr ⟨x.contentUrl, k, rfl⟩

theorem processAttachments_fetchedIds (env : Env) (k dir : String) (i : Int)
    (atts : List Attachment) (fs : FS) :
    fetchedIds (processAttachments env k dir i atts fs).evs = [] := by
  apply List.filterMap_eq_nil_iff.mpr
  intro e he
  rcases processAttachments_evs_shape env k dir i atts fs e he with ⟨u, rfl⟩ | ⟨u, a2, rfl⟩ <;> rfl

theorem processAttachments_attachmentOrder (env : Env) (k dir : String) (i : Int)
    (atts : List Attachment) : ∀ (fs : FS),
    (processAttachments env k dir i atts fs).fatal = none →
    attachmentOrder (processAttachments env k dir i atts fs).evs =
      atts.map (·.contentUrl) := by
  induction atts with
  | nil => intro fs _; rfl
  | cons x rest ih =>
    intro fs hfat
    simp only [processAttachments] at hfat ⊢
    cases hr : (downloadAttachment env k x.contentUrl dir i fs).res with
    | err e => rw [hr] at hfat; dsimp only at hfat; cases hfat
    | fatal m => rw [hr] at hfat; dsimp only at hfat; cases hfat
    | ok =>
      rw [hr] at hfat
      dsimp only at hfat ⊢
      have hout : attachmentOrder (downloadAttachment env k x.contentUrl dir i fs).evs = [] := by
        rcases downloadAttachment_evs_shape env k x.contentUrl dir i fs with hsh | hsh <;>
          rw [hsh] <;> rfl
      have hrest := ih _ hfat
      simp only [attachmentOrder, List.filterMap_cons, List.filterMap_append] at hout hrest ⊢
      rw [hout, hrest]
      simp

theorem contentCalls_attachmentStarts (atts : List Attachment) (i : Int) :
    contentCalls (atts.map fun a => Ev.attachmentStart a.contentUrl i) = [] := by
  induction atts with
  | nil => rfl
  | cons x rest ih =>
    simp only [contentCalls, List.map_cons, List.filter_cons] at ih ⊢
    simp

theorem contentCalls_append (l1 l2 : List Ev) :
    contentCalls (l1 ++ l2) = contentCalls l1 ++ contentCalls l2 := by
  simp [contentCalls, List.filter_append]

/-! ## Lemmas about syncStep and syncLoop -/

theorem syncStep_transport (env : Env) (k b dir : String) (i : Int) (fs : FS)
    (hf : env.fetch i = .transportErr) :
    syncStep env k b dir i fs =
      ⟨some (.fetchTransport i), fs, [.fetchIssue i (issueURL b i) k]⟩ := by
  simp only [syncStep, hf]

theorem syncStep_skip (env : Env) (k b dir : String) (i : Int) (fs : FS)
    (s : Nat) (d : Except String (List Attachment)) (hf : env.fetch i = .resp s d)
    (h45 : s = 404 ∨ s = 403) :
    syncStep env k b dir i fs = ⟨none, fs, [.fetchIssue i (issueURL b i) k]⟩ := by
  simp only [syncStep, hf]
  rw [if_pos h45]

theorem syncStep_fatalStatus (env : Env) (k b dir : String) (i : Int) (fs : FS)
    (s : Nat) (d : Except String (List Attachment)) (hf : env.fetch i = .resp s d)
    (h45 : ¬(s = 404 ∨ s = 403)) (h400 : s ≥ 400) :
    syncStep env k b dir i fs =
      ⟨some (.fetchStatus i s), fs, [.fetchIssue i (issueURL b i) k]⟩ := by
  simp only [syncStep, hf]
  rw [if_neg h45, if_pos h400]

theorem syncStep_decodeErr (env : Env) (k b dir : String) (i : Int) (fs : FS)
    (s : Nat) (m : String) (hf : env.fetch i = .resp s (.error m))
    (h400 : s < 400) :
    syncStep env k b dir i fs =
      ⟨some (.decodeErr i), fs, [.fetchIssue i (issueURL b i) k]⟩ := by
  have h45 : ¬(s = 404 ∨ s = 403) := by omega
  simp only [syncStep, hf]
  rw [if_neg h45, if_neg (by omega : ¬ s ≥ 400)]

theorem syncStep_process (env : Env) (k b dir : String) (i : Int) (fs : FS)
    (s : Nat) (atts : List Attachment) (hf : env.fetch i = .resp s (.ok atts))
    (h400 : s < 400) :
    syncStep env k b dir i fs =
      ⟨(processAttachments env k dir i atts fs).fatal,
       (processAttachments env k dir i atts fs).fs,
       .fetchIssue i (issueURL b i) k :: (processAttachments env k dir i atts fs).evs⟩ := by
  have h45 : ¬(s = 404 ∨ s = 403) := by omega
  simp only [syncStep, hf]
  rw [if_neg h45, if_neg (by omega : ¬ s ≥ 400)]

theorem syncStep_statPath_mono (env : Env) (k b dir : String) (i : Int) (fs : FS)
    {q : String} (h : statPath env fs q ≠ .notExist) :
    statPath env (syncStep env k b dir i fs).fs q ≠ .notExist := by
  cases hf : env.fetch i with
  | transportErr => rw [syncStep_transport env k b dir i fs hf]; exact h
  | resp s d =>
    by_cases h45 : s = 404 ∨ s = 403
    · rw [syncStep_skip env k b dir i fs s d hf h45]; exact h
    · by_cases h400 : s ≥ 400
      · rw [syncStep_fatalStatus env k b dir i fs s d hf h45 h400]; exact h
      · cases d with
        | error m => rw [syncStep_decodeErr env k b dir i fs s m hf (by omega)]; exact h
        | ok atts =>
          rw [syncStep_process env k b dir i fs s atts hf (by omega)]
          exact processAttachments_statPath_mono env k dir i atts fs h

theorem syncStep_fetchedIds (env : Env) (k b dir : String) (i : Int) (fs : FS) :
    fetchedIds (syncStep env k b dir i fs).evs = [i] := by
  cases hf : env.fetch i with
  | transportErr => rw [syncStep_transport env k b dir i fs hf]; rfl
  | resp s d =>
    by_cases h45 : s = 404 ∨ s = 403
    · rw [syncStep_skip env k b dir i fs s d hf h45]; rfl
    · by_cases h400 : s ≥ 400
      · rw [syncStep_fatalStatus env k b dir i fs s d hf h45 h400]; rfl
      · cases d with
        | error m => rw [syncStep_decodeErr env k b dir i fs s m hf (by omega)]; rfl
        | ok atts =>
          rw [syncStep_process env k b dir i fs s atts hf (by omega)]
          have hpa := processAttachments_fetchedIds env k dir i atts fs
          simp only [fetchedIds] at hpa ⊢
          simp [List.filterMap_cons, hpa]

theorem syncStep_no_resolve (env : Env) (k b dir : String) (i : Int) (fs : FS) :
    ∀ e ∈ (syncStep env k b dir i fs).evs, e ≠ .resolveCall := by
  have hmem : ∀ (e : Ev), e ∈ [Ev.fetchIssue i (issueURL b i) k] → e ≠ .resolveCall := by
    intro e he
    rcases List.mem_singleton.mp he with rfl
    simp
  cases hf : env.fetch i with
  | transportErr => rw [syncStep_transport env k b dir i fs hf]; exact hmem
  | resp s d =>
    by_cases h45 : s = 404 ∨ s = 403
    · rw [syncStep_skip env k b dir i fs s d hf h45]; exact hmem
    · by_cases h400 : s ≥ 400
      · rw [syncStep_fatalStatus env k b dir i fs s d hf h45 h400]; exact hmem
      · cases d with
        | error m => rw [syncStep_decodeErr env k b dir i fs s m hf (by omega)]; exact hmem
        | ok atts =>
          rw [syncStep_process env k b dir i fs s atts hf (by omega)]
          intro e he
          rcases List.mem_cons.mp he with rfl | he2
          · simp
          · rcases processAttachments_evs_shape env k dir i atts fs e he2 with
              ⟨u, rfl⟩ | ⟨u, a2, rfl⟩ <;> simp

theorem syncLoop_succ_some (env : Env) (k b dir : String) (n : Nat) (i : Int) (fs : FS)
    (f : Fatal) (h : (syncStep env k b dir i fs).fatal = some f) :
    syncLoop env k b dir (n + 1) i fs =
      ⟨some f, (syncStep env k b dir i fs).fs, (syncStep env k b dir i fs).evs⟩ := by
  simp only [syncLoop, h]

theorem syncLoop_succ_none (env : Env) (k b dir : String) (n : Nat) (i : Int) (fs : FS)
    (h : (syncStep env k b dir i fs).fatal = none) :
    syncLoop env k b dir (n + 1) i fs =
      ⟨(syncLoop env k b dir n (i + 1) (syncStep env k b dir i fs).fs).fatal,
       (syncLoop env k b dir n (i + 1) (syncStep env k b dir i fs).fs).fs,
       (syncStep env k b dir i fs).evs ++
         (syncLoop env k b dir n (i + 1) (syncStep env k b dir i fs).fs).evs⟩ := by
  simp only [syncLoop, h]

theorem syncLoop_statPath_mono (env : Env) (k b dir : String) :
    ∀ (n : Nat) (i : Int) (fs : FS) {q : String},
    statPath env fs q ≠ .notExist →
    statPath env (syncLoop env k b dir n i fs).fs q ≠ .notExist := by
  intro n
  induction n with
  | zero => intro i fs q h; exact h
  | succ m ih =>
    intro i fs q h
    cases hsf : (syncStep env k b dir i fs).fatal with
    | some f =>
      rw [syncLoop_succ_some env k b dir m i fs f hsf]
      exact syncStep_statPath_mono env k b dir i fs h
    | none =>
      rw [syncLoop_succ_none env k b dir m i fs hsf]
      exact ih (i + 1) _ (syncStep_statPath_mono env k b dir i fs h)

theorem syncLoop_no_resolve (env : Env) (k b dir : String) :
    ∀ (n : Nat) (i : Int) (fs : FS),
    ∀ e ∈ (syncLoop env k b dir n i fs).evs, e ≠ .resolveCall := by
  intro n
  induction n with
  | zero => intro i fs e he; cases he
  | succ m ih =>
    intro i fs e he
    cases hsf : (syncStep env k b dir i fs).fatal with
    | some f =>
      rw [syncLoop_succ_some env k b dir m i fs f hsf] at he
      exact syncStep_no_resolve env k b dir i fs e he
    | none =>
      rw [syncLoop_succ_none env k b dir m i fs hsf] at he
      rcases List.mem_append.mp he with h1 | h2
      · exact syncStep_no_resolve env k b dir i fs e h1
      · exact ih (i + 1) _ e h2

theorem syncLoop_fetchedIds (env : Env) (k b dir : String) :
    ∀ (n : Nat) (i : Int) (fs : FS),
    (syncLoop env k b dir n i fs).fatal = none →
    fetchedIds (syncLoop env k b dir n i fs).evs = ascRange i n := by
  intro n
  induction n with
  | zero => intro i fs _; rfl
  | succ m ih =>
    intro i fs hok
    cases hsf : (syncStep env k b dir i fs).fatal with
    | some f =>
      rw [syncLoop_succ_some env k b dir m i fs f hsf] at hok
      dsimp only at hok
      cases hok
    | none =>
      rw [syncLoop_succ_none env k b dir m i fs hsf] at hok ⊢
      dsimp only at hok ⊢
      have h1 := syncStep_fetchedIds env k b dir i fs
      have h2 := ih (i + 1) _ hok
      simp only [fetchedIds] at h1 h2 ⊢
      rw [List.filterMap_append, h1, h2]
      rfl

theorem syncStep_rerun (env : Env) (k b dir : String) (i : Int) (fs F : FS)
    (hok : (syncStep env k b dir i fs).fatal = none)
    (hmono : ∀ q, statPath env (syncStep env k b dir i fs).fs q ≠ .notExist →
      statPath env F q ≠ .notExist) :
    (syncStep env k b dir i F).fatal = none ∧
    (syncStep env k b dir i F).fs = F ∧
    contentCalls (syncStep env k b dir i F).evs = [] := by
  cases hf : env.fetch i with
  | transportErr =>
    rw [syncStep_transport env k b dir i fs hf] at hok
    cases hok
  | resp s d =>
    by_cases h45 : s = 404 ∨ s = 403
    · rw [syncStep_skip env k b dir i F s d hf h45]
      exact ⟨rfl, rfl, rfl⟩
    · by_cases h400 : s ≥ 400
      · rw [syncStep_fatalStatus env k b dir i fs s d hf h45 h400] at hok
        cases hok
      · cases d with
        | error m =>
          rw [syncStep_decodeErr env k b dir i fs s m hf (by omega)] at hok
          cases hok
        | ok atts =>
          have hlt : s < 400 := by omega
          rw [syncStep_process env k b dir i fs s atts hf hlt] at hok hmono
          dsimp only at hok hmono
          have hprops := processAttachments_ensures env k dir i atts fs hok
          have hF : ∀ a ∈ atts,
              containsSub attachmentRoute.data (urlParse a.contentUrl).path.data = true ∧
              statPath env F (attachmentDest a.contentUrl dir i) ≠ .notExist ∧
              statPath env F (goFilepathDir (attachmentDest a.contentUrl dir i))
                ≠ .notExist := by
            intro a ha
            obtain ⟨h1, h2, h3⟩ := hprops a ha
            exact ⟨h1, hmono _ h2, hmono _ h3⟩
          have hskip := processAttachments_skip env k dir i atts F hF
          rw [syncStep_process env k b dir i F s atts hf hlt, hskip]
          refine ⟨rfl, rfl, ?_⟩
          have hcc := contentCalls_attachmentStarts atts i
          simp only [contentCalls] at hcc
          simp [contentCalls, List.filter_cons, hcc]

theorem syncLoop_idem (env : Env) (k b dir : String) :
    ∀ (n : Nat) (i : Int) (fs : FS),
    (syncLoop env k b dir n i fs).fatal = none →
    (syncLoop env k b dir n i (syncLoop env k b dir n i fs).fs).fatal = none ∧
    (syncLoop env k b dir n i (syncLoop env k b dir n i fs).fs).fs =
      (syncLoop env k b dir n i fs).fs ∧
    contentCalls (syncLoop env k b dir n i (syncLoop env k b dir n i fs).fs).evs = [] := by
  intro n
  induction n with
  | zero => intro i fs _; exact ⟨rfl, rfl, rfl⟩
  | succ m ih =>
    intro i fs hok
    cases hsf : (syncStep env k b dir i fs).fatal with
    | some f =>
      rw [syncLoop_succ_some env k b dir m i fs f hsf] at hok
      dsimp only at hok
      cases hok
    | none =>
      rw [syncLoop_succ_none env k b dir m i fs hsf] at hok ⊢
      dsimp only at hok ⊢
      have hmono : ∀ q, statPath env (syncStep env k b dir i fs).fs q ≠ .notExist →
          statPath env
            (syncLoop env k b dir m (i + 1) (syncStep env k b dir i fs).fs).fs q
            ≠ .notExist :=
        fun q hq => syncLoop_statPath_mono env k b dir m (i + 1) _ hq
      obtain ⟨hs2none, hs2fs, hs2cc⟩ := syncStep_rerun env k b dir i fs _ hsf hmono
      obtain ⟨ht_none, ht_fs, ht_cc⟩ := ih (i + 1) (syncStep env k b dir i fs).fs hok
      rw [syncLoop_succ_none env k b dir m i _ hs2none]
      dsimp only
      rw [hs2fs]
      refine ⟨ht_none, ht_fs, ?_⟩
      rw [contentCalls_append, hs2cc, ht_cc]
      rfl

/-! ## Lemmas about the interval and runMain -/

theorem mem_ascRange (x : Int) : ∀ (n : Nat) (i : Int),
    x ∈ ascRange i n ↔ i ≤ x ∧ x < i + n := by
  intro n
  induction n with
  | zero => intro i; simp [ascRange]
  | succ m ih =>
    intro i
    simp [ascRange, ih (i + 1)]
    omega

theorem ascRange_sorted : ∀ (n : Nat) (i : Int),
    List.Sorted (· < ·) (ascRange i n) := by
  intro n
  induction n with
  | zero => intro i; simp [ascRange]
  | succ m ih =>
    intro i
    rw [show ascRange i (m + 1) = i :: ascRange (i + 1) m from rfl, List.sorted_cons]
    refine ⟨?_, ih (i + 1)⟩
    intro x hx
    have := (mem_ascRange x m (i + 1)).mp hx
    omega

theorem mem_intRange (x start endN : Int) :
    x ∈ intRange start endN ↔ start ≤ x ∧ x ≤ endN := by
  unfold intRange loopFuel
  rw [mem_ascRange]
  omega

theorem runMain_keyMissing (env : Env) (cfg : Config) (fs : FS) (h : cfg.apiKey = "") :
    runMain env cfg fs =
      ⟨some (.config "REDMINE_API_KEY not defined and -k not given"), fs, []⟩ := by
  simp only [runMain]
  rw [if_pos h]

theorem runMain_baseMissing (env : Env) (cfg : Config) (fs : FS)
    (hk : cfg.apiKey ≠ "") (hb : cfg.baseURL = "") :
    runMain env cfg fs =
      ⟨some (.config "REDMINE_BASE_URL not defined and -b not given"), fs, []⟩ := by
  simp only [runMain]
  rw [if_neg hk, if_pos hb]

theorem runMain_resolve_err (env : Env) (cfg : Config) (fs : FS)
    (hk : cfg.apiKey ≠ "") (hb : cfg.baseURL ≠ "") (h0 : cfg.endIssueNumber = 0)
    (m : String) (hres : env.resolveMax = .error m) :
    runMain env cfg fs = ⟨some (.resolveErr m), fs, [.resolveCall]⟩ := by
  simp only [runMain]
  rw [if_neg hk, if_neg hb, if_pos h0, hres]

theorem runMain_resolve_ok (env : Env) (cfg : Config) (fs : FS)
    (hk : cfg.apiKey ≠ "") (hb : cfg.baseURL ≠ "") (h0 : cfg.endIssueNumber = 0)
    (mi : Int) (hres : env.resolveMax = .ok mi) :
    runMain env cfg fs =
      ⟨(syncLoop env cfg.apiKey cfg.baseURL cfg.syncDir
          (loopFuel cfg.startIssueNumber mi) cfg.startIssueNumber fs).fatal,
       (syncLoop env cfg.apiKey cfg.baseURL cfg.syncDir
          (loopFuel cfg.startIssueNumber mi) cfg.startIssueNumber fs).fs,
       .resolveCall :: (syncLoop env cfg.apiKey cfg.baseURL cfg.syncDir
          (loopFuel cfg.startIssueNumber mi) cfg.startIssueNumber fs).evs⟩ := by
  simp only [runMain]
  rw [if_neg hk, if_neg hb, if_pos h0, hres]

theorem runMain_noResolve (env : Env) (cfg : Config) (fs : FS)
    (hk : cfg.apiKey ≠ "") (hb : cfg.baseURL ≠ "") (h0 : cfg.endIssueNumber ≠ 0) :
    runMain env cfg fs =
      syncLoop env cfg.apiKey cfg.baseURL cfg.syncDir
        (loopFuel cfg.startIssueNumber cfg.endIssueNumber) cfg.startIssueNumber fs := by
  simp only [runMain]
  rw [if_neg hk, if_neg hb, if_neg h0]

theorem runMain_ok_config (env : Env) (cfg : Config) (fs : FS)
    (h : (runMain env cfg fs).fatal = none) :
    cfg.apiKey ≠ "" ∧ cfg.baseURL ≠ "" := by
  constructor
  · intro hc
    rw [runMain_keyMissing env cfg fs hc] at h
    cases h
  · intro hc
    by_cases hk : cfg.apiKey = ""
    · rw [runMain_keyMissing env cfg fs hk] at h
      cases h
    · rw [runMain_baseMissing env cfg fs hk hc] at h
      cases h

theorem runMain_idem (env : Env) (cfg : Config) (fs : FS)
    (h : (runMain env cfg fs).fatal = none) :
    (runMain env cfg (runMain env cfg fs).fs).fatal = none ∧
    (runMain env cfg (runMain env cfg fs).fs).fs = (runMain env cfg fs).fs ∧
    contentCalls (runMain env cfg (runMain env cfg fs).fs).evs = [] := by
  obtain ⟨hk, hb⟩ := runMain_ok_config env cfg fs h
  by_cases h0 : cfg.endIssueNumber = 0
  · cases hres : env.resolveMax with
    | error m =>
      rw [runMain_resolve_err env cfg fs hk hb h0 m hres] at h
      cases h
    | ok mi =>
      rw [runMain_resolve_ok env cfg fs hk hb h0 mi hres] at h ⊢
      dsimp only at h ⊢
      obtain ⟨hn, hfs2, hcc⟩ := syncLoop_idem env cfg.apiKey cfg.baseURL cfg.syncDir
        (loopFuel cfg.startIssueNumber mi) cfg.startIssueNumber fs h
      rw [runMain_resolve_ok env cfg _ hk hb h0 mi hres]
      dsimp only
      refine ⟨hn, hfs2, ?_⟩
      have hcc2 := hcc
      simp only [contentCalls] at hcc2
      simp [contentCalls, List.filter_cons, hcc2]
  · rw [runMain_noResolve env cfg fs hk hb h0] at h ⊢
    rw [runMain_noResolve env cfg _ hk hb h0]
    exact syncLoop_idem env cfg.apiKey cfg.baseURL cfg.syncDir
      (loopFuel cfg.startIssueNumber cfg.endIssueNumber) cfg.startIssueNumber fs h

/-! ## Equational lemmas for the download branch -/

theorem downloadFile_dl_shape (env : Env) (k link dest : String) (fs : FS)
    (habs : statPath env fs dest = .notExist) (htf : env.tempFileErr = false) :
    (downloadFile env k link dest fs).fs.tmpCounter = fs.tmpCounter + 1 ∧
    (downloadFile env k link dest fs).evs = [.getContent link k] := by
  simp only [downloadFile, habs]
  rw [if_neg (by simp [htf] : ¬ env.tempFileErr = true)]
  cases hc : env.content link with
  | transportErr => exact ⟨rfl, rfl⟩
  | resp s body ce =>
    dsimp only
    by_cases hs : s ≠ 200
    · rw [if_pos hs]; exact ⟨rfl, rfl⟩
    · rw [if_neg hs]
      cases body with
      | fail w => exact ⟨rfl, rfl⟩
      | ok c =>
        dsimp only
        by_cases hce : ce = true
        · rw [if_pos hce]; exact ⟨rfl, rfl⟩
        · rw [if_neg hce]
          by_cases hre : env.renameErr dest = true
          · rw [if_pos hre]; exact ⟨rfl, rfl⟩
          · rw [if_neg hre]; exact ⟨rfl, rfl⟩

theorem downloadFile_badStatus (env : Env) (k link dest : String) (fs : FS)
    (habs : statPath env fs dest = .notExist) (htf : env.tempFileErr = false)
    (s : Nat) (body : CopyOutcome) (ce : Bool)
    (hc : env.content link = .resp s body ce) (hs : s ≠ 200) :
    downloadFile env k link dest fs =
      ⟨.err (.badStatus s),
       { fs with temps := (fs.tmpCounter, "") :: fs.temps, tmpCounter := fs.tmpCounter + 1 },
       [.getContent link k]⟩ := by
  simp only [downloadFile, habs, hc]
  rw [if_neg (by simp [htf] : ¬ env.tempFileErr = true), if_pos hs]

theorem downloadFile_renameFail (env : Env) (k link dest : String) (fs : FS)
    (habs : statPath env fs dest = .notExist) (htf : env.tempFileErr = false)
    (c : String) (hc : env.content link = .resp 200 (.ok c) false)
    (hre : env.renameErr dest = true) :
    downloadFile env k link dest fs =
      ⟨.err .renameFailed,
       { fs with
         temps := (fs.tmpCounter, c) :: (fs.tmpCounter, "") :: fs.temps
         tmpCounter := fs.tmpCounter + 1 },
       [.getContent link k]⟩ := by
  simp only [downloadFile, habs, hc]
  rw [if_neg (by simp [htf] : ¬ env.tempFileErr = true),
    if_neg (by simp : ¬ ((200 : Nat) ≠ 200))]
  rw [if_neg (by simp : ¬ (false = true)), if_pos hre]

theorem downloadFile_success (env : Env) (k link dest : String) (fs : FS)
    (habs : statPath env fs dest = .notExist) (htf : env.tempFileErr = false)
    (c : String) (hc : env.content link = .resp 200 (.ok c) false)
    (hre : env.renameErr dest = false) :
    downloadFile env k link dest fs =
      ⟨.ok,
       { fs with
         files := (dest, c) :: fs.files
         temps := ((fs.tmpCounter, c) :: (fs.tmpCounter, "") :: fs.temps).filter
           (fun kv => kv.1 != fs.tmpCounter)
         tmpCounter := fs.tmpCounter + 1 },
       [.getContent link k]⟩ := by
  simp only [downloadFile, habs, hc]
  rw [if_neg (by simp [htf] : ¬ env.tempFileErr = true),
    if_neg (by simp : ¬ ((200 : Nat) ≠ 200))]
  rw [if_neg (by simp : ¬ (false = true)), if_neg (by simp [hre] : ¬ env.renameErr dest = true)]

theorem processAttachments_err_abort (env : Env) (k dir : String) (i : Int)
    (a : Attachment) (rest : List Attachment) (fs : FS) (e : DlErr)
    (h : (downloadAttachment env k a.contentUrl dir i fs).res = .err e) :
    (processAttachments env k dir i (a :: rest) fs).fatal = some (.downloader e) := by
  simp only [processAttachments, h]

/-! ## Concrete fixtures used by the witnesses -/

/-- A benign environment: every content GET succeeds with status 200,
issue 1 has one attachment, every other issue is 404. -/
def envW : Env where
  statErr := fun _ => false
  tempFileErr := false
  mkdirErr := fun _ => false
  content := fun _ => .resp 200 (.ok "mocked-content") false
  renameErr := fun _ => false
  fetch := fun i =>
    if i = 1 then
      .resp 200 (.ok [⟨"https://example.org/attachments/download/55/report.pdf"⟩])
    else .resp 404 (.error "Not Found")
  resolveMax := .ok 2

/-- An environment whose content GETs answer with status 500. -/
def envBadW : Env := { envW with content := fun _ => .resp 500 (.ok "body") false }

/-- An environment where stat fails (non-notExist) on one path. -/
def envStatW : Env := { envW with statErr := fun p => p == "/blocked/file.pdf" }

def fsW : FS := ⟨[], [], [], 0⟩

def cfgW : Config := ⟨1, 2, "/root/sync", "KEY", "https://example.org", false, false⟩

/-- C10: Implicit stat-error edge case.  Any stat outcome other than
"does not exist" — including a stat error such as a permission failure
on a parent directory — takes the already-downloaded branch of
`downloadFile`: the call reports success with no network request, no
temporary file, and no filesystem write. -/
theorem spec_C10 (env : Env) (k link dest : String) (fs : FS)
    (herr : env.statErr dest = true) :
    downloadFile env k link dest fs = ⟨.ok, fs, []⟩ := by
  apply downloadFile_skip
  rw [statPath_ne_notExist]
  exact Or.inl herr

theorem spec_C10_witness :
    envStatW.statErr "/blocked/file.pdf" = true ∧
    downloadFile envStatW "KEY" "https://example.org/attachments/download/9/f.pdf"
      "/blocked/file.pdf" fsW = ⟨.ok, fsW, []⟩ :=
  ⟨by decide, spec_C10 envStatW "KEY" "https://example.org/attachments/download/9/f.pdf"
    "/blocked/file.pdf" fsW (by decide)⟩

/-- C2: Atomicity of download.  When the destination is absent, every
non-`ok` outcome of `downloadFile` (bad status, body-copy error, close
error, rename error) leaves the regular-file store unchanged, so no file
exists at the final destination path afterward; and the `ok` outcome
creates the destination exactly once, holding the full transferred
content (the rename of the fully written temporary file). -/
theorem spec_C2 (env : Env) (k link dest : String) (fs : FS)
    (habs : statPath env fs dest = .notExist) :
    ((downloadFile env k link dest fs).res ≠ .ok →
      (downloadFile env k link dest fs).fs.hasFile dest = false ∧
      (downloadFile env k link dest fs).fs.files = fs.files) ∧
    ((downloadFile env k link dest fs).res = .ok →
      ∃ c, env.content link = .resp 200 (.ok c) false ∧
        (downloadFile env k link dest fs).fs.files = (dest, c) :: fs.files) := by
  have hcases := downloadFile_cases env k link dest fs
  rcases hcases with ⟨hne, _⟩ | ⟨_, _, hsh⟩
  · exact absurd habs hne
  · obtain ⟨_, hnf, _⟩ := statPath_notExist_elim env fs dest habs
    constructor
    · intro hno
      rcases hsh with ⟨_, hf⟩ | ⟨hok, _⟩
      · refine ⟨?_, hf⟩
        unfold FS.hasFile FS.lookupFile at hnf ⊢
        rw [hf]
        exact hnf
      · exact absurd hok hno
    · intro hok
      rcases hsh with ⟨hno, _⟩ | ⟨_, c, hcnt, _, _, hf⟩
      · exact absurd hok hno
      · exact ⟨c, hcnt, hf⟩

theorem spec_C2_witness :
    statPath envBadW fsW "/root/sync/1/55/report.pdf" = .notExist ∧
    (downloadFile envBadW "KEY" "https://example.org/attachments/download/55/report.pdf"
        "/root/sync/1/55/report.pdf" fsW).res ≠ .ok ∧
    (downloadFile envBadW "KEY" "https://example.org/attachments/download/55/report.pdf"
        "/root/sync/1/55/report.pdf" fsW).fs.hasFile "/root/sync/1/55/report.pdf" = false := by
  have h := spec_C2 envBadW "KEY" "https://example.org/attachments/download/55/report.pdf"
    "/root/sync/1/55/report.pdf" fsW (by decide)
  exact ⟨by decide, by decide, (h.1 (by decide)).1⟩

/-- C3: Path derivation and malformed-URL rejection.  If the content
URL's path does not contain the `attachments/download` segment,
`downloadAttachment` returns the malformed-attachment-URL error and
performs no filesystem write (the state is returned untouched, with no
events).  If it does contain the segment, the call proceeds with the
destination `filepath.Join(syncRoot, issueId, strippedPath)` where the
stripped path is the URL path with the first occurrence of the segment
removed. -/
theorem spec_C3 (env : Env) (k link root : String) (i : Int) (fs : FS) :
    (containsSub attachmentRoute.data (urlParse link).path.data = false →
      downloadAttachment env k link root i fs = ⟨.err (.malformedURL link), fs, []⟩) ∧
    (containsSub attachmentRoute.data (urlParse link).path.data = true →
      downloadAttachment env k link root i fs =
        (match statPath env fs (goFilepathDir (attachmentDest link root i)) with
         | .notExist =>
           if env.mkdirErr (goFilepathDir (attachmentDest link root i)) then
             ⟨.fatal "mkdir failed", fs, []⟩
           else downloadFile env k link (attachmentDest link root i)
             { fs with dirs := goFilepathDir (attachmentDest link root i) :: fs.dirs }
         | _ => downloadFile env k link (attachmentDest link root i) fs)) ∧
    attachmentDest link root i =
      goFilepathJoin [root, toString i, replaceFirst (urlParse link).path attachmentRoute ""] :=
  ⟨downloadAttachment_invalid env k link root i fs,
    downloadAttachment_valid_eq env k link root i fs, rfl⟩

theorem spec_C3_witness :
    containsSub attachmentRoute.data
      (urlParse "https://example.org/files/55/report.pdf").path.data = false ∧
    downloadAttachment envW "KEY" "https://example.org/files/55/report.pdf" "/root/sync" 1 fsW =
      ⟨.err (.malformedURL "https://example.org/files/55/report.pdf"), fsW, []⟩ ∧
    containsSub attachmentRoute.data
      (urlParse "https://example.org/attachments/download/55/report.pdf").path.data = true ∧
    attachmentDest "https://example.org/attachments/download/55/report.pdf" "/root/sync" 1 =
      "/root/sync/1/55/report.pdf" := by
  refine ⟨by decide,
    (spec_C3 envW "KEY" "https://example.org/files/55/report.pdf" "/root/sync" 1 fsW).1
      (by decide),
    by decide, by decide⟩

/-- C6: Download algorithm when the destination is absent.  The
temporary file is created first (the counter advances even on transfer
failure), exactly one GET to the content URL carrying the
X-Redmine-API-Key header is issued, a non-200 status yields the
bad-status error reporting the status (leaving the orphaned temp file),
a successful 200 transfer with working rename writes the full body to
the destination and removes the temp file, a failing rename yields the
rename error, and any downloader error aborts the run (the attachment
loop turns it into a fatal outcome, never falling back to a copy). -/
theorem spec_C6 (env : Env) (k link dest : String) (fs : FS)
    (habs : statPath env fs dest = .notExist) (htf : env.tempFileErr = false) :
    (downloadFile env k link dest fs).fs.tmpCounter = fs.tmpCounter + 1 ∧
    (downloadFile env k link dest fs).evs = [.getContent link k] ∧
    (∀ (s : Nat) (body : CopyOutcome) (ce : Bool),
      env.content link = .resp s body ce → s ≠ 200 →
      downloadFile env k link dest fs =
        ⟨.err (.badStatus s),
         { fs with temps := (fs.tmpCounter, "") :: fs.temps, tmpCounter := fs.tmpCounter + 1 },
         [.getContent link k]⟩) ∧
    (∀ c : String, env.content link = .resp 200 (.ok c) false →
      (env.renameErr dest = true →
        (downloadFile env k link dest fs).res = .err .renameFailed) ∧
      (env.renameErr dest = false →
        downloadFile env k link dest fs =
          ⟨.ok,
           { fs with
             files := (dest, c) :: fs.files
             temps := ((fs.tmpCounter, c) :: (fs.tmpCounter, "") :: fs.temps).filter
               (fun kv => kv.1 != fs.tmpCounter)
             tmpCounter := fs.tmpCounter + 1 },
           [.getContent link k]⟩)) ∧
    (∀ (dir2 k2 : String) (i : Int) (a : Attachment) (rest : List Attachment)
        (fs2 : FS) (e : DlErr),
      (downloadAttachment env k2 a.contentUrl dir2 i fs2).res = .err e →
      (processAttachments env k2 dir2 i (a :: rest) fs2).fatal = some (.downloader e)) := by
  obtain ⟨hcnt, hevs⟩ := downloadFile_dl_shape env k link dest fs habs htf
  refine ⟨hcnt, hevs, ?_, ?_, ?_⟩
  · intro s body ce hc hs
    exact downloadFile_badStatus env k link dest fs habs htf s body ce hc hs
  · intro c hc
    constructor
    · intro hre
      rw [downloadFile_renameFail env k link dest fs habs htf c hc hre]
    · intro hre
      exact downloadFile_success env k link dest fs habs htf c hc hre
  · intro dir2 k2 i a rest fs2 e hda
    exact processAttachments_err_abort env k2 dir2 i a rest fs2 e hda

theorem spec_C6_witness :
    statPath envW fsW "/root/sync/1/55/report.pdf" = .notExist ∧
    envW.tempFileErr = false ∧
    downloadFile envW "KEY" "https://example.org/attachments/download/55/report.pdf"
        "/root/sync/1/55/report.pdf" fsW =
      ⟨.ok,
       { fsW with
         files := [("/root/sync/1/55/report.pdf", "mocked-content")]
         temps := []
         tmpCounter := 1 },
       [.getContent "https://example.org/attachments/download/55/report.pdf" "KEY"]⟩ := by
  have h := spec_C6 envW "KEY" "https://example.org/attachments/download/55/report.pdf"
    "/root/sync/1/55/report.pdf" fsW (by decide) (by decide)
  refine ⟨by decide, by decide, ?_⟩
  have h2 := (h.2.2.2.1 "mocked-content" (by decide)).2 (by decide)
  rw [h2]
  decide


/-- C4: Issue-fetch error split.  For a fetch response with status `s`:
404 or 403 makes the step a skip (no fatal, state unchanged) and the
loop continues with `i + 1`; any other status ≥ 400 is fatal, reporting
the status; a body that fails JSON decoding is fatal with a
decode-failure report. -/
theorem spec_C4 (env : Env) (k b dir : String) (i : Int) (fs : FS) (n : Nat)
    (s : Nat) (d : Except String (List Attachment)) (hf : env.fetch i = .resp s d) :
    ((s = 404 ∨ s = 403) →
      syncStep env k b dir i fs = ⟨none, fs, [.fetchIssue i (issueURL b i) k]⟩ ∧
      syncLoop env k b dir (n + 1) i fs =
        ⟨(syncLoop env k b dir n (i + 1) fs).fatal,
         (syncLoop env k b dir n (i + 1) fs).fs,
         .fetchIssue i (issueURL b i) k :: (syncLoop env k b dir n (i + 1) fs).evs⟩) ∧
    (¬(s = 404 ∨ s = 403) → s ≥ 400 →
      syncStep env k b dir i fs =
        ⟨some (.fetchStatus i s), fs, [.fetchIssue i (issueURL b i) k]⟩) ∧
    (∀ m : String, s < 400 → d = .error m →
      syncStep env k b dir i fs =
        ⟨some (.decodeErr i), fs, [.fetchIssue i (issueURL b i) k]⟩) := by
  refine ⟨?_, fun h45 h400 => syncStep_fatalStatus env k b dir i fs s d hf h45 h400,
    fun m hlt hd => ?_⟩
  · intro h45
    have hstep := syncStep_skip env k b dir i fs s d hf h45
    refine ⟨hstep, ?_⟩
    have hloop := syncLoop_succ_none env k b dir n i fs (by rw [hstep])
    rw [hstep] at hloop
    exact hloop
  · rw [hd] at hf
    exact syncStep_decodeErr env k b dir i fs s m hf hlt

theorem spec_C4_witness :
    envW.fetch 2 = .resp 404 (.error "Not Found") ∧
    syncStep envW "KEY" "https://example.org" "/root/sync" 2 fsW =
      ⟨none, fsW, [.fetchIssue 2 (issueURL "https://example.org" 2) "KEY"]⟩ := by
  have h := spec_C4 envW "KEY" "https://example.org" "/root/sync" 2 fsW 0 404
    (.error "Not Found") (by decide)
  exact ⟨by decide, (h.1 (Or.inl rfl)).1⟩

/-- C9: No directory for invisible issues.  A 404 or 403 fetch outcome
leaves the filesystem (in particular its directory list) unchanged and
the loop proceeds to identifier `i + 1`; and `downloadFile` itself never
creates directories, so directory creation happens only in
`downloadAttachment`'s MkdirAll during attachment processing of a
successfully fetched issue. -/
theorem spec_C9 (env : Env) (k b dir : String) (i : Int) (fs : FS) (n : Nat)
    (s : Nat) (d : Except String (List Attachment))
    (hf : env.fetch i = .resp s d) (h45 : s = 404 ∨ s = 403) :
    syncStep env k b dir i fs = ⟨none, fs, [.fetchIssue i (issueURL b i) k]⟩ ∧
    (syncStep env k b dir i fs).fs.dirs = fs.dirs ∧
    syncLoop env k b dir (n + 1) i fs =
      ⟨(syncLoop env k b dir n (i + 1) fs).fatal,
       (syncLoop env k b dir n (i + 1) fs).fs,
       .fetchIssue i (issueURL b i) k :: (syncLoop env k b dir n (i + 1) fs).evs⟩ ∧
    (∀ (k2 l2 p2 : String) (fs2 : FS),
      (downloadFile env k2 l2 p2 fs2).fs.dirs = fs2.dirs) := by
  have hstep := syncStep_skip env k b dir i fs s d hf h45
  have hloop := syncLoop_succ_none env k b dir n i fs (by rw [hstep])
  rw [hstep] at hloop
  refine ⟨hstep, by rw [hstep], hloop, fun k2 l2 p2 fs2 => downloadFile_dirs env k2 l2 p2 fs2⟩

theorem spec_C9_witness :
    envW.fetch 2 = .resp 404 (.error "Not Found") ∧
    syncStep envW "KEY" "https://example.org" "/root/sync" 2 fsW =
      ⟨none, fsW, [.fetchIssue 2 (issueURL "https://example.org" 2) "KEY"]⟩ ∧
    (syncStep envW "KEY" "https://example.org" "/root/sync" 2 fsW).fs.dirs = fsW.dirs := by
  have h := spec_C9 envW "KEY" "https://example.org" "/root/sync" 2 fsW 0 404
    (.error "Not Found") (by decide) (Or.inl rfl)
  exact ⟨by decide, h.1, h.2.1⟩


/-- C1: Idempotent download.  If a filesystem entry already exists at the
computed destination path, `downloadFile` performs no network request and
returns success immediately, leaving the filesystem (hence the existing
file's contents) unchanged.  Consequently, re-running the full sync on
the state left by a successful run reproduces exactly the same final
directory contents and makes zero content-download network calls (in
particular none for the files created by the first run). -/
theorem spec_C1 (env : Env) (cfg : Config) (fs : FS)
    (h : (runMain env cfg fs).fatal = none) :
    (∀ (k link dest : String) (fs1 : FS), env.statErr dest = false →
      fs1.hasFile dest = true →
      downloadFile env k link dest fs1 = ⟨.ok, fs1, []⟩) ∧
    (runMain env cfg (runMain env cfg fs).fs).fatal = none ∧
    (runMain env cfg (runMain env cfg fs).fs).fs = (runMain env cfg fs).fs ∧
    contentCalls (runMain env cfg (runMain env cfg fs).fs).evs = [] := by
  refine ⟨?_, runMain_idem env cfg fs h⟩
  intro k link dest fs1 hse hfile
  apply downloadFile_skip
  rw [statPath_ne_notExist]
  exact Or.inr (Or.inl hfile)

theorem spec_C1_witness :
    (runMain envW cfgW fsW).fatal = none ∧
    (runMain envW cfgW (runMain envW cfgW fsW).fs).fatal = none ∧
    (runMain envW cfgW (runMain envW cfgW fsW).fs).fs = (runMain envW cfgW fsW).fs ∧
    contentCalls (runMain envW cfgW (runMain envW cfgW fsW).fs).evs = [] ∧
    downloadFile envW "KEY" "https://example.org/attachments/download/55/report.pdf"
        "/f.pdf" ⟨[("/f.pdf", "old")], [], [], 3⟩ =
      ⟨.ok, ⟨[("/f.pdf", "old")], [], [], 3⟩, []⟩ := by
  have h0 : (runMain envW cfgW fsW).fatal = none := by decide
  have h := spec_C1 envW cfgW fsW h0
  exact ⟨h0, h.2.1, h.2.2.1, h.2.2.2,
    h.1 "KEY" "https://example.org/attachments/download/55/report.pdf" "/f.pdf"
      ⟨[("/f.pdf", "old")], [], [], 3⟩ (by decide) (by decide)⟩

/-- C8: Configuration errors are fatal before any activity.  An empty
API key (after flag/environment resolution) terminates the run with the
API-key fatal, and an empty base URL with the base-URL fatal, in both
cases with no events (no HTTP request) and the filesystem untouched. -/
theorem spec_C8 (env : Env) (cfg : Config) (fs : FS) :
    (cfg.apiKey = "" →
      runMain env cfg fs =
        ⟨some (.config "REDMINE_API_KEY not defined and -k not given"), fs, []⟩) ∧
    (cfg.apiKey ≠ "" → cfg.baseURL = "" →
      runMain env cfg fs =
        ⟨some (.config "REDMINE_BASE_URL not defined and -b not given"), fs, []⟩) :=
  ⟨runMain_keyMissing env cfg fs, runMain_baseMissing env cfg fs⟩

theorem spec_C8_witness :
    runMain envW { cfgW with apiKey := "" } fsW =
      ⟨some (.config "REDMINE_API_KEY not defined and -k not given"), fsW, []⟩ ∧
    runMain envW { cfgW with baseURL := "" } fsW =
      ⟨some (.config "REDMINE_BASE_URL not defined and -b not given"), fsW, []⟩ :=
  ⟨(spec_C8 envW { cfgW with apiKey := "" } fsW).1 (by decide),
   (spec_C8 envW { cfgW with baseURL := "" } fsW).2 (by decide) (by decide)⟩

/-- C7: Range-resolver sentinel.  The resolver is invoked if and only if
the configured end issue number is 0: with a non-zero end no
`resolveCall` event ever occurs; with end = 0 (and valid configuration)
a resolver error is fatal before any issue is fetched (the trace is just
the resolver call and the filesystem untouched), and a resolver success
makes its value the loop's upper bound. -/
theorem spec_C7 (env : Env) (cfg : Config) (fs : FS) :
    (cfg.endIssueNumber ≠ 0 → Ev.resolveCall ∉ (runMain env cfg fs).evs) ∧
    (cfg.endIssueNumber = 0 → cfg.apiKey ≠ "" → cfg.baseURL ≠ "" →
      (∀ m : String, env.resolveMax = .error m →
        runMain env cfg fs = ⟨some (.resolveErr m), fs, [.resolveCall]⟩ ∧
        fetchedIds (runMain env cfg fs).evs = []) ∧
      (∀ mi : Int, env.resolveMax = .ok mi →
        runMain env cfg fs =
          ⟨(syncLoop env cfg.apiKey cfg.baseURL cfg.syncDir
              (loopFuel cfg.startIssueNumber mi) cfg.startIssueNumber fs).fatal,
           (syncLoop env cfg.apiKey cfg.baseURL cfg.syncDir
              (loopFuel cfg.startIssueNumber mi) cfg.startIssueNumber fs).fs,
           .resolveCall :: (syncLoop env cfg.apiKey cfg.baseURL cfg.syncDir
              (loopFuel cfg.startIssueNumber mi) cfg.startIssueNumber fs).evs⟩)) := by
  constructor
  · intro h0 hmem
    by_cases hk : cfg.apiKey = ""
    · rw [runMain_keyMissing env cfg fs hk] at hmem
      cases hmem
    · by_cases hb : cfg.baseURL = ""
      · rw [runMain_baseMissing env cfg fs hk hb] at hmem
        cases hmem
      · rw [runMain_noResolve env cfg fs hk hb h0] at hmem
        exact syncLoop_no_resolve env cfg.apiKey cfg.baseURL cfg.syncDir
          (loopFuel cfg.startIssueNumber cfg.endIssueNumber) cfg.startIssueNumber fs
          _ hmem rfl
  · intro h0 hk hb
    constructor
    · intro m hres
      rw [runMain_resolve_err env cfg fs hk hb h0 m hres]
      exact ⟨rfl, rfl⟩
    · intro mi hres
      exact runMain_resolve_ok env cfg fs hk hb h0 mi hres

theorem spec_C7_witness :
    cfgW.endIssueNumber ≠ 0 ∧
    Ev.resolveCall ∉ (runMain envW cfgW fsW).evs ∧
    runMain { envW with resolveMax := .error "boom" }
        { cfgW with endIssueNumber := 0 } fsW =
      ⟨some (.resolveErr "boom"), fsW, [.resolveCall]⟩ := by
  refine ⟨by decide, (spec_C7 envW cfgW fsW).1 (by decide), ?_⟩
  exact (((spec_C7 { envW with resolveMax := .error "boom" }
    { cfgW with endIssueNumber := 0 } fsW).2 rfl (by decide) (by decide)).1
    "boom" rfl).1


/-- C5: Driver iteration order.  A run that completes without a fatal
error fetches exactly the identifiers of the closed interval
`[startIssueNumber, resolvedEnd]`, in strictly ascending order (the
fetched-id trace equals `intRange`, whose members are exactly the
interval and which is sorted by `<`); and a successfully processed issue
records its attachment downloads exactly in the order of the decoded
attachment list. -/
theorem spec_C5 (env : Env) (cfg : Config) (fs : FS)
    (h : (runMain env cfg fs).fatal = none) :
    fetchedIds (runMain env cfg fs).evs =
      intRange cfg.startIssueNumber (resolvedEnd env cfg) ∧
    (∀ x : Int, x ∈ intRange cfg.startIssueNumber (resolvedEnd env cfg) ↔
      cfg.startIssueNumber ≤ x ∧ x ≤ resolvedEnd env cfg) ∧
    List.Sorted (· < ·) (intRange cfg.startIssueNumber (resolvedEnd env cfg)) ∧
    (∀ (k b dir : String) (i : Int) (fs1 : FS) (s : Nat) (atts : List Attachment),
      env.fetch i = .resp s (.ok atts) → s < 400 →
      (syncStep env k b dir i fs1).fatal = none →
      attachmentOrder (syncStep env k b dir i fs1).evs = atts.map (·.contentUrl)) := by
  refine ⟨?_, fun x => mem_intRange x _ _, ascRange_sorted _ _, ?_⟩
  · obtain ⟨hk, hb⟩ := runMain_ok_config env cfg fs h
    by_cases h0 : cfg.endIssueNumber = 0
    · cases hres : env.resolveMax with
      | error m =>
        rw [runMain_resolve_err env cfg fs hk hb h0 m hres] at h
        cases h
      | ok mi =>
        have hre : resolvedEnd env cfg = mi := by
          simp [resolvedEnd, h0, hres]
        rw [runMain_resolve_ok env cfg fs hk hb h0 mi hres] at h ⊢
        dsimp only at h ⊢
        have hl := syncLoop_fetchedIds env cfg.apiKey cfg.baseURL cfg.syncDir
          (loopFuel cfg.startIssueNumber mi) cfg.startIssueNumber fs h
        rw [hre]
        unfold intRange
        simp only [fetchedIds, List.filterMap_cons] at hl ⊢
        exact hl
    · have hre : resolvedEnd env cfg = cfg.endIssueNumber := by
        simp [resolvedEnd, h0]
      rw [runMain_noResolve env cfg fs hk hb h0] at h ⊢
      rw [hre]
      exact syncLoop_fetchedIds env cfg.apiKey cfg.baseURL cfg.syncDir
        (loopFuel cfg.startIssueNumber cfg.endIssueNumber) cfg.startIssueNumber fs h
  · intro k b dir i fs1 s atts hfet hlt hok
    rw [syncStep_process env k b dir i fs1 s atts hfet hlt] at hok ⊢
    dsimp only at hok ⊢
    have hpa := processAttachments_attachmentOrder env k dir i atts fs1 hok
    simp only [attachmentOrder, List.filterMap_cons] at hpa ⊢
    exact hpa

theorem spec_C5_witness :
    (runMain envW cfgW fsW).fatal = none ∧
    fetchedIds (runMain envW cfgW fsW).evs =
      intRange cfgW.startIssueNumber (resolvedEnd envW cfgW) ∧
    intRange cfgW.startIssueNumber (resolvedEnd envW cfgW) = [1, 2] := by
  have h0 : (runMain envW cfgW fsW).fatal = none := by decide
  exact ⟨h0, (spec_C5 envW cfgW fsW h0).1, by decide⟩

end Redminesync
